import Mathlib

/-!
Verification of the pplx streaming merge engine and socket RPC client.

This file gives a shallow embedding of the repository's stream-processing
code (`mergeMarkdownBlock`, `mergeBlocks`, `mergeEntries`, `extractAnswer`,
`StreamAccumulator.update`, `parseEventStream`) and of the pending-ack
bookkeeping of `PerplexitySocket` (`emitWithAck`, the ack/timeout/close
handlers), and proves properties of them.

Modelling conventions:
* JavaScript objects are modelled either as typed structures with `Option`
  fields (a declared field that is absent or `null` is `none`) plus an
  association list `fields` for the dynamically keyed entries, or as the
  `Json` inductive below.
* JavaScript strings are modelled as Lean `String`; the JS operations used
  by the source (`trim`, `startsWith`, `slice`, `includes`) are re-defined
  below over the character list so that they are easy to evaluate and to
  reason about.
* `Map` insertion-order semantics (set updates an existing key in place,
  otherwise appends) are modelled by `amSet` on association lists; object
  spread is modelled by `spreadF` / `oSpread`.
-/

/-- JSON values, the dynamic data of the protocol. -/
inductive Json where
  | null : Json
  | bool (b : Bool) : Json
  | num (n : Int) : Json
  | str (s : String) : Json
  | arr (elems : List Json) : Json
  | obj (fields : List (String × Json)) : Json
deriving Repr

mutual

/-- Deep structural equality on `Json` (model of the deep-equal test used
by the external JSON-patch library for `test` operations; object key order
is significant in this model). -/
def jsonEq : Json → Json → Bool
  | Json.null, Json.null => true
  | Json.bool a, Json.bool b => a == b
  | Json.num a, Json.num b => a == b
  | Json.str a, Json.str b => a == b
  | Json.arr a, Json.arr b => jsonEqList a b
  | Json.obj a, Json.obj b => jsonEqObj a b
  | _, _ => false

/-- Elementwise `jsonEq` on arrays. -/
def jsonEqList : List Json → List Json → Bool
  | [], [] => true
  | x :: xs, y :: ys => jsonEq x y && jsonEqList xs ys
  | _, _ => false

/-- Entrywise `jsonEq` on object field lists. -/
def jsonEqObj : List (String × Json) → List (String × Json) → Bool
  | [], [] => true
  | (k1, v1) :: xs, (k2, v2) :: ys => k1 == k2 && jsonEq v1 v2 && jsonEqObj xs ys
  | _, _ => false

end

/-! ### Association lists with JS `Map` / object semantics -/

/-- First-match lookup: `Map.get` / property read. -/
def amGet {κ α : Type} [DecidableEq κ] : List (κ × α) → κ → Option α
  | [], _ => none
  | (k, v) :: rest, key => if k = key then some v else amGet rest key

/-- `Map.set` / object-literal assignment: update an existing key in place
(keeping its position), otherwise append the new pair. -/
def amSet {κ α : Type} [DecidableEq κ] : List (κ × α) → κ → α → List (κ × α)
  | [], k, v => [(k, v)]
  | (k', v') :: rest, k, v =>
    if k' = k then (k, v) :: rest else (k', v') :: amSet rest k v

/-- `Map.delete`: drop every pair with the given key. -/
def amRemove {κ α : Type} [DecidableEq κ] (m : List (κ × α)) (k : κ) : List (κ × α) :=
  m.filter (fun p => if p.1 = k then false else true)

/-- The keys of an association list, in order. -/
def amKeys {κ α : Type} (m : List (κ × α)) : List κ :=
  m.map Prod.fst

/-- Object spread `\x7b...base, ...inc\x7d` on dynamically keyed fields: base keys
keep their positions (values overridden by `inc` where present), keys new in
`inc` are appended in order. -/
def spreadF {κ α : Type} [DecidableEq κ] (base inc : List (κ × α)) : List (κ × α) :=
  base.map (fun p => (p.1, (amGet inc p.1).getD p.2)) ++
    inc.filter (fun p => (amGet base p.1).isNone)

/-- Object spread on one declared (optional) field: the incoming value wins
when present, otherwise the base value is kept. -/
def oSpread {α : Type} (base inc : Option α) : Option α :=
  match inc with
  | some v => some v
  | none => base

/-! ### JS string operations used by the source -/

/-- JS `String.prototype.trim` (whitespace per `Char.isWhitespace`). -/
def jsTrim (s : String) : String :=
  ⟨((s.data.dropWhile Char.isWhitespace).reverse.dropWhile Char.isWhitespace).reverse⟩

/-- JS `s.startsWith(pre)`. -/
def jsStartsWith (s pre : String) : Bool :=
  pre.data.isPrefixOf s.data

/-- JS `s.slice(n)` (drop the first `n` characters). -/
def jsSliceFrom (s : String) (n : Nat) : String :=
  ⟨s.data.drop n⟩

/-- JS `s.length`. -/
def jsLen (s : String) : Nat :=
  s.data.length

/-- JS `s.includes(pat)` on character lists. -/
def hasSubstr : List Char → List Char → Bool
  | hay, pat =>
    pat.isPrefixOf hay ||
      (match hay with
       | [] => false
       | _ :: t => hasSubstr t pat)

/-- Parse a decimal array index (model of the index handling of the external
JSON-patch library). -/
def parseIndex (s : String) : Option Nat :=
  if s.data ≠ [] && s.data.all Char.isDigit then
    some (s.data.foldl (fun n c => n * 10 + (c.toNat - '0'.toNat)) 0)
  else
    none

/-! ### Model of the external `fast-json-patch` library (`applyPatch`)

The repository calls `applyPatch(current, patches, false, false)` from an
external library.  The model below implements RFC 6902 semantics for the six
operations over `Json`; a failing operation yields `Except.error`, which
models the exception the library throws. -/

/-- One JSON-patch operation (the repository's `JsonPatch` shape; the
`from` member is called `fromPath` here because of the Lean keyword). -/
structure PatchOp where
  op : String
  path : String
  value : Option Json := none
  fromPath : Option String := none

/-- Decode one JSON-pointer segment: `~1` stands for `/` and `~0` for `~`. -/
def unescapeSeg : List Char → List Char
  | [] => []
  | '~' :: '1' :: rest => '/' :: unescapeSeg rest
  | '~' :: '0' :: rest => '~' :: unescapeSeg rest
  | c :: rest => c :: unescapeSeg rest

/-- Split a character list on `/`. -/
def splitSegs (acc : List Char) : List Char → List (List Char)
  | [] => [acc.reverse]
  | '/' :: rest => acc.reverse :: splitSegs [] rest
  | c :: rest => splitSegs (c :: acc) rest

/-- Parse a JSON pointer: `""` addresses the whole document, otherwise the
pointer must start with `/` and is split into unescaped segments. -/
def parsePointer (p : String) : Except String (List String)  :=
  match p.data with
  | [] => Except.ok []
  | '/' :: rest => Except.ok ((splitSegs [] rest).map (fun cs => String.mk (unescapeSeg cs)))
  | _ => Except.error "pointer does not start with a slash"

/-- Read the value at a pointer path, if it exists. -/
def jsonGetAt : Json → List String → Option Json
  | d, [] => some d
  | Json.obj fs, k :: ks => (amGet fs k).bind (fun child => jsonGetAt child ks)
  | Json.arr xs, k :: ks => (parseIndex k).bind (fun i => (xs.get? i).bind (fun child => jsonGetAt child ks))
  | _, _ :: _ => none

/-- RFC 6902 `add`: create or overwrite an object member, insert into an
array (`-` appends); intermediate path segments must exist. -/
def jsonAddAt : Json → List String → Json → Except String Json
  | _, [], v => Except.ok v
  | Json.obj fs, [k], v => Except.ok (Json.obj (amSet fs k v))
  | Json.arr xs, [k], v =>
    if k = "-" then Except.ok (Json.arr (xs ++ [v]))
    else
      match parseIndex k with
      | some i =>
        if i ≤ xs.length then Except.ok (Json.arr (xs.take i ++ v :: xs.drop i))
        else Except.error "add: index out of bounds"
      | none => Except.error "add: bad array index"
  | Json.obj fs, k :: ks, v =>
    match amGet fs k with
    | some child => (jsonAddAt child ks v).map (fun c => Json.obj (amSet fs k c))
    | none => Except.error "add: path does not exist"
  | Json.arr xs, k :: ks, v =>
    match parseIndex k with
    | some i =>
      match xs.get? i with
      | some child => (jsonAddAt child ks v).map (fun c => Json.arr (xs.set i c))
      | none => Except.error "add: index out of bounds"
    | none => Except.error "add: bad array index"
  | _, _ :: _, _ => Except.error "add: cannot navigate a scalar"

/-- RFC 6902 `remove`: the target location must exist. -/
def jsonRemoveAt : Json → List String → Except String Json
  | _, [] => Except.error "remove: cannot remove the whole document"
  | Json.obj fs, [k] =>
    match amGet fs k with
    | some _ => Except.ok (Json.obj (amRemove fs k))
    | none => Except.error "remove: path does not exist"
  | Json.arr xs, [k] =>
    match parseIndex k with
    | some i =>
      if i < xs.length then Except.ok (Json.arr (xs.eraseIdx i))
      else Except.error "remove: index out of bounds"
    | none => Except.error "remove: bad array index"
  | Json.obj fs, k :: ks =>
    match amGet fs k with
    | some child => (jsonRemoveAt child ks).map (fun c => Json.obj (amSet fs k c))
    | none => Except.error "remove: path does not exist"
  | Json.arr xs, k :: ks =>
    match parseIndex k with
    | some i =>
      match xs.get? i with
      | some child => (jsonRemoveAt child ks).map (fun c => Json.arr (xs.set i c))
      | none => Except.error "remove: index out of bounds"
    | none => Except.error "remove: bad array index"
  | _, _ :: _ => Except.error "remove: cannot navigate a scalar"

/-- RFC 6902 `replace`: the target location must exist. -/
def jsonReplaceAt : Json → List String → Json → Except String Json
  | _, [], v => Except.ok v
  | Json.obj fs, [k], v =>
    match amGet fs k with
    | some _ => Except.ok (Json.obj (amSet fs k v))
    | none => Except.error "replace: path does not exist"
  | Json.arr xs, [k], v =>
    match parseIndex k with
    | some i =>
      if i < xs.length then Except.ok (Json.arr (xs.set i v))
      else Except.error "replace: index out of bounds"
    | none => Except.error "replace: bad array index"
  | Json.obj fs, k :: ks, v =>
    match amGet fs k with
    | some child => (jsonReplaceAt child ks v).map (fun c => Json.obj (amSet fs k c))
    | none => Except.error "replace: path does not exist"
  | Json.arr xs, k :: ks, v =>
    match parseIndex k with
    | some i =>
      match xs.get? i with
      | some child => (jsonReplaceAt child ks v).map (fun c => Json.arr (xs.set i c))
      | none => Except.error "replace: index out of bounds"
    | none => Except.error "replace: bad array index"
  | _, _ :: _, _ => Except.error "replace: cannot navigate a scalar"

/-- Apply a single patch operation. -/
def applyOperation (d : Json) (op : PatchOp) : Except String Json := do
  let path ← parsePointer op.path
  match op.op with
  | "add" => jsonAddAt d path (op.value.getD Json.null)
  | "remove" => jsonRemoveAt d path
  | "replace" => jsonReplaceAt d path (op.value.getD Json.null)
  | "move" => do
    let fromP ← parsePointer ((op.fromPath).getD "")
    match jsonGetAt d fromP with
    | some v => do
      let d' ← jsonRemoveAt d fromP
      jsonAddAt d' path v
    | none => Except.error "move: source does not exist"
  | "copy" => do
    let fromP ← parsePointer ((op.fromPath).getD "")
    match jsonGetAt d fromP with
    | some v => jsonAddAt d path v
    | none => Except.error "copy: source does not exist"
  | "test" =>
    match jsonGetAt d path with
    | some v => if jsonEq v (op.value.getD Json.null) then Except.ok d else Except.error "test failed"
    | none => Except.error "test: path does not exist"
  | _ => Except.error "unknown operation"

/-- `applyPatch(doc, ops, false, false)`: apply the ordered operations,
stopping at the first failure. -/
def applyPatch (doc : Json) (ops : List PatchOp) : Except String Json :=
  ops.foldlM applyOperation doc

/-! ### Data model: blocks and entries (`types.ts`)

Typed fields model the members the merge engine reads; every other
dynamically keyed member of a block or entry lives in its `fields`
association list.  The model assumes a `diff_block.field` names a data
field (stored in `fields`), not one of the structural keys. -/

/-- The `DiffBlock` shape: a target field name and ordered patches. -/
structure DiffBlock where
  field : String
  patches : Option (List PatchOp) := none

/-- The `MarkdownBlock` shape. -/
structure MarkdownBlock where
  progress : Option String := none
  chunks : Option (List String) := none
  chunk_starting_offset : Option Nat := none
  answer : Option String := none
deriving Repr, DecidableEq

/-- The `WebResult` shape (the members read by the extraction code). -/
structure WebResult where
  name : Option String := none
  url : Option String := none
  snippet : Option String := none
deriving Repr, DecidableEq

/-- The `WebResultBlock` shape. -/
structure WebResultBlock where
  progress : Option String := none
  web_results : Option (List WebResult) := none
deriving Repr, DecidableEq

/-- Display-ready source link. -/
structure SourceLink where
  title : String
  url : String
deriving Repr, DecidableEq

/-- The `Block` shape: keyed by `intended_usage`, carrying the structured
payloads plus arbitrary further keyed fields. -/
structure Block where
  intended_usage : String
  markdown_block : Option MarkdownBlock := none
  diff_block : Option DiffBlock := none
  web_result_block : Option WebResultBlock := none
  fields : List (String × Json) := []

/-- The spread of `undefined`: a block contributing nothing. -/
def Block.empty : Block :=
  { intended_usage := "" }

/-- Object spread of one block over another, fieldwise. -/
def blockSpread (base inc : Block) : Block :=
  { intended_usage := inc.intended_usage
    markdown_block := oSpread base.markdown_block inc.markdown_block
    diff_block := oSpread base.diff_block inc.diff_block
    web_result_block := oSpread base.web_result_block inc.web_result_block
    fields := spreadF base.fields inc.fields }

/-- A partial entry (`Partial Entry`): the fields the engine reads, plus
the remaining dynamically keyed scalar fields. -/
structure EntryP where
  status : Option String := none
  final : Option Bool := none
  text : Option String := none
  error_code : Option String := none
  blocks : Option (List Block) := none
  fields : List (String × Json) := []

/-- The empty entry. -/
def emptyEntry : EntryP := {}

/-! ### The merge engine (`stream.ts`) -/

/-- `mergeMarkdownBlock`: shallow-merge scalar markdown fields (incoming
wins); when the incoming block carries a nonempty chunk list, splice it:
offset 0 (or absent) replaces the accumulated chunks, a nonzero offset
keeps the first `offset` accumulated chunks and appends the incoming ones. -/
def mergeMarkdownBlock (existing : Option MarkdownBlock) (incoming : MarkdownBlock) : MarkdownBlock :=
  match existing with
  | none => incoming
  | some ex =>
    let result : MarkdownBlock :=
      { progress := oSpread ex.progress incoming.progress
        chunks := oSpread ex.chunks incoming.chunks
        chunk_starting_offset := oSpread ex.chunk_starting_offset incoming.chunk_starting_offset
        answer := oSpread ex.answer incoming.answer }
    match incoming.chunks with
    | some (c :: cs) =>
      let offset := incoming.chunk_starting_offset.getD 0
      let existingChunks := ex.chunks.getD []
      if offset = 0 then { result with chunks := some (c :: cs) }
      else { result with chunks := some (existingChunks.take offset ++ (c :: cs)) }
    | _ => result

/-- The default current value for a diff target: an empty object when the
first patch path starts with a slash, an empty string otherwise. -/
def diffDefault (db : DiffBlock) : Json :=
  match (db.patches.getD []).head? with
  | some p => if jsStartsWith p.path "/" then Json.obj [] else Json.str ""
  | none => Json.str ""

/-- The current value of the diff target field, read from the previous
block for the key (nullish values fall back to the default). -/
def diffCurrent (prev : Option Block) (db : DiffBlock) : Json :=
  match prev.bind (fun b => amGet b.fields db.field) with
  | some Json.null => diffDefault db
  | some v => v
  | none => diffDefault db

/-- One step of the incoming-block loop of `mergeBlocks`, updating the
keyed block map. -/
def mergeBlockStep (m : List (String × Block)) (block : Block) : List (String × Block) :=
  let key := block.intended_usage
  let prev := amGet m key
  match block.markdown_block with
  | some md =>
    amSet m key
      { (prev.getD Block.empty) with
          intended_usage := key
          markdown_block := some (mergeMarkdownBlock (prev.bind (fun b => b.markdown_block)) md) }
  | none =>
    match block.diff_block with
    | some db =>
      let current := diffCurrent prev db
      let patches := db.patches.getD []
      match applyPatch current patches with
      | Except.ok patched =>
        amSet m key
          { (prev.getD Block.empty) with
              intended_usage := key
              fields := amSet (prev.getD Block.empty).fields db.field patched }
      | Except.error _ =>
        amSet m key (blockSpread (prev.getD Block.empty) block)
    | none =>
      amSet m key (blockSpread (prev.getD Block.empty) block)

/-- The keyed map built from the existing blocks. -/
def initBlockMap (existing : List Block) : List (String × Block) :=
  existing.foldl (fun m b => amSet m b.intended_usage b) []

/-- `mergeBlocks`: fold the incoming blocks over the keyed map and return
its values in insertion order. -/
def mergeBlocks (existing incoming : List Block) : List Block :=
  ((incoming.foldl mergeBlockStep (initBlockMap existing)).map Prod.snd)

/-- The spread of the incoming entry minus its `blocks` over the existing
entry (the `incomingRest` spread of `mergeEntries`). -/
def spreadEntryRest (ex inc : EntryP) : EntryP :=
  { status := oSpread ex.status inc.status
    final := oSpread ex.final inc.final
    text := oSpread ex.text inc.text
    error_code := oSpread ex.error_code inc.error_code
    blocks := ex.blocks
    fields := spreadF ex.fields inc.fields }

/-- `mergeEntries`: shallow-merge scalar fields, then merge blocks when the
incoming update carries a nonempty block list, otherwise keep the existing
blocks (defaulting to the empty list). -/
def mergeEntries (existing incoming : EntryP) : EntryP :=
  let merged := spreadEntryRest existing incoming
  match incoming.blocks with
  | some (b :: bs) =>
    { merged with blocks := some (mergeBlocks (existing.blocks.getD []) (b :: bs)) }
  | _ =>
    { merged with blocks := some (existing.blocks.getD []) }

/-! ### Answer and source extraction -/

/-- The text a markdown payload yields: a truthy (nonempty) `answer`
verbatim, else the chunk list joined without separator when nonempty. -/
def extractFromMarkdown (m : MarkdownBlock) : Option String :=
  match m.answer with
  | some a =>
    if a.data ≠ [] then some a
    else
      match m.chunks with
      | some (c :: cs) => some (String.join (c :: cs))
      | _ => none
  | none =>
    match m.chunks with
    | some (c :: cs) => some (String.join (c :: cs))
    | _ => none

/-- `extractAnswer`: first a block whose key contains "markdown" and which
carries a markdown payload, then the block keyed exactly `ask_text`;
otherwise the empty string. -/
def extractAnswer (entry : EntryP) : String :=
  let blocks := entry.blocks.getD []
  if blocks.isEmpty then ""
  else
    let mdBlock := blocks.find? (fun b =>
      hasSubstr b.intended_usage.data "markdown".data && b.markdown_block.isSome)
    match mdBlock.bind (fun b => b.markdown_block.bind extractFromMarkdown) with
    | some a => a
    | none =>
      let textBlock := blocks.find? (fun b =>
        b.intended_usage == "ask_text" && b.markdown_block.isSome)
      match textBlock.bind (fun b => b.markdown_block.bind extractFromMarkdown) with
      | some a => a
      | none => ""

/-- `extractWebResults`: the raw results of the `web_results` block. -/
def extractWebResults (entry : EntryP) : List WebResult :=
  let blocks := entry.blocks.getD []
  if blocks.isEmpty then []
  else
    match blocks.find? (fun b => b.intended_usage == "web_results") with
    | some b => ((b.web_result_block).bind (fun w => w.web_results)).getD []
    | none => []

/-- Truthiness of an optional string: present and nonempty. -/
def truthyStr : Option String → Bool
  | some s => !s.isEmpty
  | none => false

/-- `extractSources`: results with a truthy name and url, as links. -/
def extractSources (entry : EntryP) : List SourceLink :=
  ((extractWebResults entry).filter (fun r => truthyStr r.url && truthyStr r.name)).map
    (fun r => { title := r.name.getD "", url := r.url.getD "" })

/-! ### The stream accumulator -/

/-- The update record emitted per incoming payload. -/
structure StreamUpdate where
  entry : EntryP
  answer : String
  delta : String
  sources : List SourceLink
  isFinal : Bool

/-- The accumulator's private state: the rolling entry and answer. -/
structure AccState where
  entry : EntryP
  answer : String

namespace StreamAccumulator

/-- Fresh accumulator state: empty block list, empty answer. -/
def init : AccState :=
  { entry := { emptyEntry with blocks := some [] }, answer := "" }

/-- `StreamAccumulator.update`: merge the incoming payload, extract the new
answer, emit the delta (appended suffix when the new answer extends the old
one, the whole new answer otherwise) and the finality flag computed from
the incoming payload alone. -/
def update (s : AccState) (incoming : EntryP) : AccState × StreamUpdate :=
  let entry := mergeEntries s.entry incoming
  let answer := extractAnswer entry
  let delta := if jsStartsWith answer s.answer then jsSliceFrom answer (jsLen s.answer) else answer
  ({ entry := entry, answer := answer },
   { entry := entry
     answer := answer
     delta := delta
     sources := extractSources entry
     isFinal := incoming.final.getD false || incoming.status == some "COMPLETED" })

end StreamAccumulator

/-! ### The frame decoder loop (`parseEventStream`)

The byte decoding and SSE framing are done by external code (`TextDecoder`
and `eventsource-parser`); the repository's own loop consumes the queue of
dequeued event payload strings.  An input event is therefore modelled as
the dequeued `data` string together with the outcome of `JSON.parse` on it
(`none` models a `SyntaxError`). -/

/-- One dequeued event: the raw payload string and its JSON parse. -/
structure RawEvent where
  data : String
  parsed : Option EntryP

/-- The typed stream error (`PerplexityStreamError`). -/
structure StreamErr where
  message : String
  code : Option String
deriving Repr, DecidableEq

/-- What the loop does with one dequeued payload. -/
inductive PStep where
  | skip : PStep
  | emit (p : EntryP) : PStep
  | fail (e : StreamErr) : PStep

/-- Whether a step raises the typed stream error. -/
def PStep.isFail : PStep → Bool
  | PStep.fail _ => true
  | _ => false

/-- Truthiness of the `error_code` member: present and nonempty. -/
def errCodeTruthy (p : EntryP) : Bool :=
  match p.error_code with
  | some c => !c.isEmpty
  | none => false

/-- A payload declares an application-level failure: status `failed` or
`FAILED`, or a truthy `error_code`. -/
def declaresFailure (p : EntryP) : Bool :=
  p.status == some "failed" || p.status == some "FAILED" || errCodeTruthy p

/-- The per-payload decision of `parseEventStream`: trim; drop empty and
`[DONE]` payloads; drop unparseable payloads; raise the typed error on a
failed status or truthy error code; otherwise emit the parsed payload. -/
def processPayload (ev : RawEvent) : PStep :=
  let data := jsTrim ev.data
  if data = "" || data = "[DONE]" then PStep.skip
  else
    match ev.parsed with
    | none => PStep.skip
    | some parsed =>
      if parsed.status == some "failed" || parsed.status == some "FAILED" then
        PStep.fail { message := parsed.text.getD "Perplexity stream failed", code := parsed.error_code }
      else if errCodeTruthy parsed then
        PStep.fail
          { message := parsed.text.getD (parsed.error_code.getD "Perplexity stream failed")
            code := parsed.error_code }
      else PStep.emit parsed

/-- The decoded sequence over a whole queue of events: the emitted payloads
in order, and the typed error that terminated the sequence, if any
(payloads after a failure are not processed). -/
def parseEventStream : List RawEvent → List EntryP × Option StreamErr
  | [] => ([], none)
  | ev :: rest =>
    match processPayload ev with
    | PStep.skip => parseEventStream rest
    | PStep.emit p =>
      let r := parseEventStream rest
      (p :: r.1, r.2)
    | PStep.fail e => ([], some e)

/-- Well-formedness of a modelled event: a payload that trims to the empty
string or to the sentinel is not valid JSON, so its parse is `none` (true
of the real `JSON.parse`). -/
def WFEvent (ev : RawEvent) : Prop :=
  (jsTrim ev.data = "" ∨ jsTrim ev.data = "[DONE]") → ev.parsed = none

/-! ### The socket RPC client (`PerplexitySocket`)

The pending-ack table and its transitions are modelled as pure state
transformers; promise resolution and rejection are modelled as emitted
`RpcOutcome`s.  A pending call's timer is alive exactly while its entry is
in the table (the code clears the timer whenever it deletes the entry), so
timer cancellation is modelled by removal from the table. -/

/-- One pending RPC call: the event name (captured by the timer closure)
and the timeout it was registered with. -/
structure PendingCall where
  event : String
  timeoutMs : Nat
deriving Repr, DecidableEq

/-- The socket's RPC state: the ack-id counter and the pending-call table. -/
structure SockState where
  nextAckId : Nat
  pendingAcks : List (Nat × PendingCall)

/-- The reasons a pending call settles exceptionally. -/
inductive RpcError where
  | timeout (event : String) : RpcError
  | closed : RpcError
  | malformedAck (id : Nat) : RpcError
  | rpc (message : Json) : RpcError

/-- A promise settlement observed by a caller. -/
inductive RpcOutcome where
  | resolved (id : Nat) (value : Option Json) : RpcOutcome
  | rejected (id : Nat) (error : RpcError) : RpcOutcome

/-- The decoded body of an inbound ack frame. -/
inductive AckPayload where
  | malformed : AckPayload
  | empty : AckPayload
  | value (j : Json) : AckPayload

/-- Default RPC timeout (30 s). -/
def RPC_TIMEOUT_MS : Nat := 30000

namespace PerplexitySocket

/-- `emitWithAck`: allocate the next ack id, register the pending call with
its timer, send the event frame; returns the new state and the id. -/
def emitWithAck (st : SockState) (event : String) (timeoutMs : Nat := RPC_TIMEOUT_MS) :
    SockState × Nat :=
  let ackId := st.nextAckId
  ({ nextAckId := ackId + 1
     pendingAcks := amSet st.pendingAcks ackId { event := event, timeoutMs := timeoutMs } },
   ackId)

/-- The timer callback: delete the entry and reject with a timeout error.
A timer can only fire while its entry is still in the table (deleting the
entry always clears the timer), so a missing entry means no event. -/
def fireTimeout (st : SockState) (ackId : Nat) : SockState × List RpcOutcome :=
  match amGet st.pendingAcks ackId with
  | some pc =>
    ({ st with pendingAcks := amRemove st.pendingAcks ackId },
     [RpcOutcome.rejected ackId (RpcError.timeout pc.event)])
  | none => (st, [])

/-- Nullish member read used by the ack error chain. -/
def nnGet (fs : List (String × Json)) (k : String) : Option Json :=
  match amGet fs k with
  | some Json.null => none
  | some v => some v
  | none => none

/-- The message of a server error response:
`error_message`, else `error_code`, else `error`, else a fixed fallback. -/
def ackErrMessage (fs : List (String × Json)) : Json :=
  ((nnGet fs "error_message").getD
    ((nnGet fs "error_code").getD
      ((nnGet fs "error").getD (Json.str "RPC error"))))

/-- The inbound-ack handler: an id with no pending entry is a no-op;
otherwise the entry is removed and its timer cleared, then the call is
rejected on a malformed body or a server error object, else resolved with
the first array element (or the bare payload). -/
def onAckFrame (st : SockState) (ackId : Nat) (payload : AckPayload) :
    SockState × List RpcOutcome :=
  match amGet st.pendingAcks ackId with
  | none => (st, [])
  | some _ =>
    let st' := { st with pendingAcks := amRemove st.pendingAcks ackId }
    match payload with
    | AckPayload.malformed => (st', [RpcOutcome.rejected ackId (RpcError.malformedAck ackId)])
    | AckPayload.empty => (st', [RpcOutcome.resolved ackId none])
    | AckPayload.value j =>
      let result : Option Json :=
        match j with
        | Json.arr xs => xs.head?
        | _ => some j
      match result with
      | some (Json.obj fs) =>
        if (amGet fs "error").isSome then
          (st', [RpcOutcome.rejected ackId (RpcError.rpc (ackErrMessage fs))])
        else (st', [RpcOutcome.resolved ackId result])
      | _ => (st', [RpcOutcome.resolved ackId result])

/-- The socket `onclose` handler: reject every pending call with the
closed-connection error, clear all timers, empty the table. -/
def onSocketClose (st : SockState) : SockState × List RpcOutcome :=
  ({ st with pendingAcks := [] },
   st.pendingAcks.map (fun p => RpcOutcome.rejected p.1 RpcError.closed))

/-- `close()`: reject every pending call with the closed-connection error,
clear the table, release the socket. -/
def close (st : SockState) : SockState × List RpcOutcome :=
  ({ st with pendingAcks := [] },
   st.pendingAcks.map (fun p => RpcOutcome.rejected p.1 RpcError.closed))

end PerplexitySocket

/-! ### Invariant definitions and concrete protocol data used in the
theorems below -/

/-- Well-formedness of the keyed block map: keys are distinct and every
stored block's `intended_usage` is its key. -/
def BlockMapWF (m : List (String × Block)) : Prop :=
  (amKeys m).Nodup ∧ ∀ p ∈ m, p.2.intended_usage = p.1

/-- A markdown answer block under the given usage key. -/
def mdAnswerBlock (usage ans : String) : Block :=
  { intended_usage := usage, markdown_block := some { answer := some ans } }

/-- A partial entry carrying one markdown answer block. -/
def mdAnswerEntry (ans : String) : EntryP :=
  { blocks := some [mdAnswerBlock "markdown_answer" ans] }

/-- Accumulator state mid-stream, with running answer `"Hello"`. -/
def accHello : AccState :=
  { entry := StreamAccumulator.init.entry, answer := "Hello" }

/-- A dequeued failure payload: status `failed`, server text and code. -/
def c2FailEvent : RawEvent :=
  { data := "\x7b\"status\": \"failed\", \"text\": \"quota exceeded\", \"error_code\": \"E1\"\x7d"
    parsed := some { status := some "failed", text := some "quota exceeded", error_code := some "E1" } }

/-- A payload that parses and carries a present but empty `error_code`. -/
def c2EmptyCodeEvent : RawEvent :=
  { data := "\x7b\"error_code\": \"\"\x7d"
    parsed := some { error_code := some "" } }

/-- A `[DONE]` sentinel payload followed by an ordinary payload. -/
def c1Events : List RawEvent :=
  [{ data := "[DONE]", parsed := none },
   { data := "\x7b\"text\": \"hi\"\x7d", parsed := some { text := some "hi" } }]

/-- A structural patch replacing a path that does not exist. -/
def c5Patch : PatchOp :=
  { op := "replace", path := "/a/b", value := some (Json.str "v") }

/-- A diff instruction targeting the `plan` field with the failing patch. -/
def c5Db : DiffBlock :=
  { field := "plan", patches := some [c5Patch] }

/-- A block carrying only the diff instruction. -/
def c5Block : Block :=
  { intended_usage := "k", diff_block := some c5Db }

/-- Two incoming generic blocks sharing the key `k`, with the field `b`
present in both. -/
def c6b1 : Block :=
  { intended_usage := "k", fields := [("a", Json.str "1"), ("b", Json.str "2")] }

/-- The later block sharing the key `k`. -/
def c6b2 : Block :=
  { intended_usage := "k", fields := [("b", Json.str "3")] }

/-- The single block the merge of `c6b1` then `c6b2` produces. -/
def c6Out : Block :=
  blockSpread (blockSpread Block.empty c6b1) c6b2

/-- An update carrying a markdown block under key `k`. -/
def c7U1 : EntryP :=
  { blocks := some [{ intended_usage := "k", markdown_block := some { answer := some "hi" } }] }

/-- An update carrying a generic block under the same key `k`. -/
def c7U2 : EntryP :=
  { blocks := some [{ intended_usage := "k", fields := [("content", Json.str "c")] }] }

/-- A block-free scalar update. -/
def c7w1 : EntryP :=
  { status := some "PENDING", text := some "partial" }

/-- A second block-free scalar update. -/
def c7w2 : EntryP :=
  { status := some "COMPLETED", final := some true }

/-- A socket state with two pending RPC calls. -/
def c9St : SockState :=
  { nextAckId := 2
    pendingAcks := [(0, { event := "refresh", timeoutMs := 30000 }),
                    (1, { event := "refresh", timeoutMs := 30000 })] }

/-! ### Lemmas about the association-list map operations -/

theorem amGet_amSet_self {κ α : Type} [DecidableEq κ] (m : List (κ × α)) (k : κ) (v : α) :
    amGet (amSet m k v) k = some v := by
  induction m with
  | nil => simp [amGet, amSet]
  | cons p t ih =>
    by_cases h : p.1 = k
    · simp [amGet, amSet, h]
    · simp [amGet, amSet, h, ih]

theorem amGet_amRemove_self {κ α : Type} [DecidableEq κ] (m : List (κ × α)) (k : κ) :
    amGet (amRemove m k) k = none := by
  induction m with
  | nil => simp [amGet, amRemove]
  | cons p t ih =>
    by_cases h : p.1 = k
    · simpa [amRemove, List.filter, h] using ih
    · simpa [amRemove, List.filter, h, amGet] using ih

theorem mem_amSet {κ α : Type} [DecidableEq κ] {m : List (κ × α)} {k : κ} {v : α} {p : κ × α}
    (hp : p ∈ amSet m k v) : p ∈ m ∨ p = (k, v) := by
  induction m with
  | nil => simpa [amSet] using hp
  | cons q t ih =>
    by_cases h : q.1 = k
    · rw [show amSet (q :: t) k v = (k, v) :: t by simp [amSet, h]] at hp
      rcases List.mem_cons.mp hp with h1 | h1
      · exact Or.inr h1
      · exact Or.inl (List.mem_cons_of_mem _ h1)
    · rw [show amSet (q :: t) k v = q :: amSet t k v by simp [amSet, h]] at hp
      rcases List.mem_cons.mp hp with h1 | h1
      · exact Or.inl (h1 ▸ List.mem_cons_self _ _)
      · rcases ih h1 with h2 | h2
        · exact Or.inl (List.mem_cons_of_mem _ h2)
        · exact Or.inr h2

theorem amKeys_amSet_mem {κ α : Type} [DecidableEq κ] {m : List (κ × α)} {k x : κ} {v : α}
    (hx : x ∈ amKeys (amSet m k v)) : x ∈ amKeys m ∨ x = k := by
  rcases List.mem_map.mp hx with ⟨p, hp, hpx⟩
  rcases mem_amSet hp with h | h
  · exact Or.inl (hpx ▸ List.mem_map_of_mem Prod.fst h)
  · subst h; exact Or.inr hpx.symm

theorem amKeys_nodup_amSet {κ α : Type} [DecidableEq κ] {m : List (κ × α)} (k : κ) (v : α)
    (h : (amKeys m).Nodup) : (amKeys (amSet m k v)).Nodup := by
  induction m with
  | nil => simp [amSet, amKeys]
  | cons p t ih =>
    rw [amKeys, List.map_cons, List.nodup_cons] at h
    by_cases hk : p.1 = k
    · rw [show amSet (p :: t) k v = (k, v) :: t by simp [amSet, hk]]
      rw [amKeys, List.map_cons, List.nodup_cons]
      exact ⟨hk ▸ h.1, h.2⟩
    · rw [show amSet (p :: t) k v = p :: amSet t k v by simp [amSet, hk]]
      rw [amKeys, List.map_cons, List.nodup_cons]
      refine ⟨fun hc => ?_, ih h.2⟩
      rcases amKeys_amSet_mem hc with h1 | h1
      · exact h.1 h1
      · exact hk h1

theorem amGet_mem {κ α : Type} [DecidableEq κ] {m : List (κ × α)} {k : κ} {v : α}
    (h : amGet m k = some v) : (k, v) ∈ m := by
  induction m with
  | nil => simp [amGet] at h
  | cons p t ih =>
    by_cases hk : p.1 = k
    · rw [amGet, if_pos hk] at h
      have : p = (k, v) := by
        cases p
        simp only at hk h
        simp only [Option.some.injEq] at h
        rw [hk, h]
      exact this ▸ List.mem_cons_self _ _
    · rw [amGet, if_neg hk] at h
      exact List.mem_cons_of_mem _ (ih h)

theorem amGet_eq_of_mem_nodup {κ α : Type} [DecidableEq κ] {m : List (κ × α)} {k : κ} {v : α}
    (hn : (amKeys m).Nodup) (hm : (k, v) ∈ m) : amGet m k = some v := by
  induction m with
  | nil => simp at hm
  | cons p t ih =>
    rw [amKeys, List.map_cons, List.nodup_cons] at hn
    rcases List.mem_cons.mp hm with h1 | h1
    · rw [← h1, amGet, if_pos rfl]
    · have hk : p.1 ≠ k := by
        intro he
        exact hn.1 (he ▸ List.mem_map_of_mem Prod.fst h1)
      rw [amGet, if_neg hk]
      exact ih hn.2 h1

theorem mem_values_pair {κ α : Type} {m : List (κ × α)} {b : α}
    (h : b ∈ m.map Prod.snd) : ∃ p, p ∈ m ∧ p.2 = b := by
  rcases List.mem_map.mp h with ⟨p, hp, hpb⟩
  exact ⟨p, hp, hpb⟩

theorem amGet_append {κ α : Type} [DecidableEq κ] (l1 l2 : List (κ × α)) (k : κ) :
    amGet (l1 ++ l2) k =
      (match amGet l1 k with
       | some v => some v
       | none => amGet l2 k) := by
  induction l1 with
  | nil => simp [amGet]
  | cons p t ih =>
    by_cases h : p.1 = k
    · simp [amGet, h]
    · simp [amGet, h, ih]

theorem amGet_mapOverride {κ α : Type} [DecidableEq κ] (base inc : List (κ × α)) (k : κ) :
    amGet (base.map (fun p => (p.1, (amGet inc p.1).getD p.2))) k =
      (amGet base k).map (fun v => (amGet inc k).getD v) := by
  induction base with
  | nil => simp [amGet]
  | cons p t ih =>
    by_cases h : p.1 = k
    · subst h
      simp [amGet, ih]
    · simp [amGet, h, ih]

theorem amGet_filterNew {κ α : Type} [DecidableEq κ] (base inc : List (κ × α)) (k : κ) :
    amGet (inc.filter (fun p => (amGet base p.1).isNone)) k =
      (if (amGet base k).isNone then amGet inc k else none) := by
  induction inc with
  | nil => simp [amGet]
  | cons p t ih =>
    by_cases hb : (amGet base p.1).isNone
    · rw [List.filter_cons_of_pos (by simpa using hb)]
      by_cases h : p.1 = k
      · subst h
        simp [amGet, hb]
      · simp [amGet, h, ih]
    · rw [List.filter_cons_of_neg (by simpa using hb)]
      by_cases h : p.1 = k
      · subst h
        simp [amGet, hb, ih]
      · simp [amGet, h, ih]

theorem amGet_spreadF {κ α : Type} [DecidableEq κ] (base inc : List (κ × α)) (k : κ) :
    amGet (spreadF base inc) k = oSpread (amGet base k) (amGet inc k) := by
  rw [spreadF, amGet_append, amGet_mapOverride, amGet_filterNew]
  cases hb : amGet base k <;> cases hi : amGet inc k <;> simp [oSpread]

theorem spreadF_nil {κ α : Type} [DecidableEq κ] (inc : List (κ × α)) :
    spreadF ([] : List (κ × α)) inc = inc := by
  rw [spreadF]
  simp only [List.map_nil, List.nil_append]
  induction inc with
  | nil => rfl
  | cons p t ih =>
    rw [List.filter_cons_of_pos (by simp [amGet])]
    rw [ih]

theorem oSpread_none {α : Type} (x : Option α) : oSpread none x = x := by
  cases x <;> rfl

/-! ### String lemma for the delta computation -/

theorem jsStartsWith_append (s pre : String) (h : jsStartsWith s pre = true) :
    pre ++ jsSliceFrom s (jsLen pre) = s := by
  cases pre with | mk pd =>
  cases s with | mk sd =>
  rw [jsStartsWith] at h
  have hp : pd <+: sd := by
    simpa using List.isPrefixOf_iff_prefix.mp h
  obtain ⟨t, ht⟩ := hp
  show String.mk (pd ++ sd.drop pd.length) = String.mk sd
  rw [← ht, List.drop_left]

/-! ### Claim theorems -/

/-- C1 (amended): a dequeued payload that trims to the `[DONE]` sentinel is
skipped — no item is emitted for it and no error is raised — and processing
then simply continues with the remaining queue; the sentinel does not
terminate the decoded sequence. -/
theorem c1_done_payload_skipped (ev : RawEvent) (rest : List RawEvent)
    (h : jsTrim ev.data = "[DONE]") :
    processPayload ev = PStep.skip ∧ parseEventStream (ev :: rest) = parseEventStream rest := by
  have hs : processPayload ev = PStep.skip := by
    rw [processPayload]
    simp [h]
  exact ⟨hs, by rw [parseEventStream, hs]⟩

/-- C1 witness: a stream consisting of the bare sentinel decodes to no
payloads and no error. -/
theorem c1_done_witness :
    parseEventStream [{ data := "[DONE]", parsed := none }] = ([], none) :=
  (c1_done_payload_skipped { data := "[DONE]", parsed := none } [] (by decide)).2.trans rfl

/-- C1 counterexample: a payload dequeued after the `[DONE]` sentinel is
still emitted (one item) with no error, contradicting the claim that the
decoded sequence cleanly ends at the sentinel. -/
theorem c1_emission_after_done :
    (parseEventStream c1Events).1.length = 1 ∧ (parseEventStream c1Events).2 = none := by
  constructor <;> decide

/-- C4 (amended): when a markdown block carrying a nonempty chunk list is
merged over a previously accumulated one, the chunk sequence obeys the
splice rule: offset 0 or absent replaces the accumulated chunks entirely,
and a nonzero offset keeps the first `offset` accumulated chunks and
appends the incoming ones.  (With an empty or absent incoming chunk list
the splice rule does not apply; the shallow merge governs `chunks`.) -/
theorem c4_chunk_splice (ex inc : MarkdownBlock) (c : String) (cs : List String)
    (hc : inc.chunks = some (c :: cs)) :
    (inc.chunk_starting_offset.getD 0 = 0 →
       (mergeMarkdownBlock (some ex) inc).chunks = some (c :: cs)) ∧
    (∀ n, inc.chunk_starting_offset = some n → n ≠ 0 →
       (mergeMarkdownBlock (some ex) inc).chunks =
         some ((ex.chunks.getD []).take n ++ (c :: cs))) := by
  constructor
  · intro h0
    rw [mergeMarkdownBlock]
    simp [hc, h0]
  · intro n hn hne
    rw [mergeMarkdownBlock]
    simp [hc, hn, hne]

/-- C4 witness: accumulated chunks `a, b, c` spliced with incoming `X` at
offset 1 give `a, X`; and offset 0 fully replaces. -/
theorem c4_chunk_splice_witness :
    (mergeMarkdownBlock (some { chunks := some ["a", "b", "c"] })
       { chunks := some ["X"], chunk_starting_offset := some 1 }).chunks = some ["a", "X"] ∧
    (mergeMarkdownBlock (some { chunks := some ["a", "b", "c"] })
       { chunks := some ["X"], chunk_starting_offset := some 0 }).chunks = some ["X"] := by
  constructor
  · have h := (c4_chunk_splice { chunks := some ["a", "b", "c"] }
      { chunks := some ["X"], chunk_starting_offset := some 1 } "X" [] rfl).2 1 rfl (by decide)
    exact h.trans (by decide)
  · exact (c4_chunk_splice { chunks := some ["a", "b", "c"] }
      { chunks := some ["X"], chunk_starting_offset := some 0 } "X" [] rfl).1 (by decide)

/-- C4 counterexample: with an incoming chunk list that is present but
empty and offset 1, the merge yields the empty chunk list (the shallow
merge wins), not the truncation of the accumulated chunks the claim's
splice rule demands. -/
theorem c4_empty_chunks_no_splice :
    ¬ ((mergeMarkdownBlock (some { chunks := some ["a", "b", "c"] })
          { chunks := some ([] : List String), chunk_starting_offset := some 1 }).chunks =
        some ((["a", "b", "c"].take 1) ++ ([] : List String))) := by
  decide

/-- C3: for every accumulator state and incoming payload, the emitted
answer is the one extracted from the merged entry, and the delta obeys the
prefix rule: when the new answer starts with the previous one, the previous
answer concatenated with the delta is exactly the new answer; otherwise the
delta is the entire new answer.  No other diffing is performed. -/
theorem c3_delta_prefix_rule (s : AccState) (incoming : EntryP) :
    ((StreamAccumulator.update s incoming).2.answer =
       extractAnswer (mergeEntries s.entry incoming)) ∧
    (jsStartsWith (StreamAccumulator.update s incoming).2.answer s.answer = true →
       s.answer ++ (StreamAccumulator.update s incoming).2.delta =
         (StreamAccumulator.update s incoming).2.answer) ∧
    (jsStartsWith (StreamAccumulator.update s incoming).2.answer s.answer = false →
       (StreamAccumulator.update s incoming).2.delta =
         (StreamAccumulator.update s incoming).2.answer) := by
  refine ⟨rfl, ?_, ?_⟩
  · intro h
    have h' : jsStartsWith (extractAnswer (mergeEntries s.entry incoming)) s.answer = true := h
    show s.answer ++
        (if jsStartsWith (extractAnswer (mergeEntries s.entry incoming)) s.answer then
          jsSliceFrom (extractAnswer (mergeEntries s.entry incoming)) (jsLen s.answer)
         else extractAnswer (mergeEntries s.entry incoming)) =
      extractAnswer (mergeEntries s.entry incoming)
    rw [if_pos h']
    exact jsStartsWith_append _ _ h'
  · intro h
    have h' : jsStartsWith (extractAnswer (mergeEntries s.entry incoming)) s.answer = false := h
    show (if jsStartsWith (extractAnswer (mergeEntries s.entry incoming)) s.answer then
          jsSliceFrom (extractAnswer (mergeEntries s.entry incoming)) (jsLen s.answer)
         else extractAnswer (mergeEntries s.entry incoming)) =
      extractAnswer (mergeEntries s.entry incoming)
    rw [if_neg (by simp [h'])]

/-- C3 witness: previous answer `Hello` with new answer `Hello world`
gives delta `" world"`; previous `Hello` with new `Goodbye` gives the full
new answer as delta. -/
theorem c3_delta_prefix_rule_witness :
    "Hello" ++ (StreamAccumulator.update accHello (mdAnswerEntry "Hello world")).2.delta =
      "Hello world" ∧
    (StreamAccumulator.update accHello (mdAnswerEntry "Goodbye")).2.delta = "Goodbye" := by
  constructor
  · have h := (c3_delta_prefix_rule accHello (mdAnswerEntry "Hello world")).2.1 (by decide)
    exact h.trans (by decide)
  · have h := (c3_delta_prefix_rule accHello (mdAnswerEntry "Goodbye")).2.2 (by decide)
    exact h.trans (by decide)

/-- C10: the finality flag of every update is computed from the incoming
payload alone — it does not depend on the accumulator state, it is true
exactly when the incoming `final` is truthy or the incoming status is the
exact string `COMPLETED`, and a lowercase `completed` status does not
count. -/
theorem c10_finality_not_latched (s1 s2 : AccState) (incoming : EntryP) :
    ((StreamAccumulator.update s1 incoming).2.isFinal =
       (StreamAccumulator.update s2 incoming).2.isFinal) ∧
    ((StreamAccumulator.update s1 incoming).2.isFinal = true ↔
       incoming.final = some true ∨ incoming.status = some "COMPLETED") ∧
    (StreamAccumulator.update s1 { status := some "completed" }).2.isFinal = false := by
  refine ⟨rfl, ?_, rfl⟩
  show (incoming.final.getD false || incoming.status == some "COMPLETED") = true ↔
    incoming.final = some true ∨ incoming.status = some "COMPLETED"
  cases hf : incoming.final with
  | none => simp
  | some b => cases b <;> simp

/-- C2 (amended): the frame decoder raises its typed stream error exactly
when a dequeued payload parses as JSON and declares an application-level
failure — a status of `failed` or `FAILED`, or a truthy (present and
nonempty) `error_code`; a payload that fails to parse is silently skipped;
and the failed payload with text `quota exceeded` and code `E1` terminates
the sequence with exactly that message and code. -/
theorem c2_failure_error_iff (ev : RawEvent) (hwf : WFEvent ev) :
    (((processPayload ev).isFail = true) ↔
       ∃ p, ev.parsed = some p ∧ declaresFailure p = true) ∧
    (ev.parsed = none → processPayload ev = PStep.skip) ∧
    (∀ rest, parseEventStream (c2FailEvent :: rest) =
       ([], some { message := "quota exceeded", code := some "E1" })) := by
  refine ⟨⟨?_, ?_⟩, ?_, ?_⟩
  · intro hf
    by_cases h1 : jsTrim ev.data = ""
    · rw [processPayload] at hf
      simp [h1, PStep.isFail] at hf
    · by_cases h2 : jsTrim ev.data = "[DONE]"
      · rw [processPayload] at hf
        simp [h2, PStep.isFail] at hf
      · rw [processPayload] at hf
        simp only [h1, h2, decide_eq_true_eq] at hf
        cases hp : ev.parsed with
        | none =>
          rw [hp] at hf
          simp [PStep.isFail] at hf
        | some p =>
          rw [hp] at hf
          dsimp only at hf
          refine ⟨p, rfl, ?_⟩
          rw [declaresFailure]
          by_cases hs : (p.status == some "failed" || p.status == some "FAILED") = true
          · simp [hs]
          · rw [if_neg hs] at hf
            by_cases he : errCodeTruthy p = true
            · simp [hs, he]
            · rw [if_neg he] at hf
              simp [PStep.isFail] at hf
  · rintro ⟨p, hp, hdf⟩
    have h12 : ¬ (jsTrim ev.data = "" ∨ jsTrim ev.data = "[DONE]") := by
      intro hor
      rw [hwf hor] at hp
      exact Option.noConfusion hp
    push_neg at h12
    rw [processPayload]
    simp only [h12.1, h12.2, decide_eq_true_eq]
    rw [hp]
    rw [declaresFailure] at hdf
    by_cases hs : (p.status == some "failed" || p.status == some "FAILED") = true
    · simp [hs, PStep.isFail]
    · have hd2 : (p.status = some "failed" ∨ p.status = some "FAILED") ∨
          errCodeTruthy p = true := by
        simpa using hdf
      have he : errCodeTruthy p = true := by
        rcases hd2 with (h | h) | h
        · exact absurd (by simp [h]) hs
        · exact absurd (by simp [h]) hs
        · exact h
      simp [hs, he, PStep.isFail]
  · intro hp
    rw [processPayload]
    split
    · rfl
    · rw [hp]
  · intro rest
    have hpp : processPayload c2FailEvent =
        PStep.fail { message := "quota exceeded", code := some "E1" } := rfl
    rw [parseEventStream, hpp]

/-- C2 witness: the failed payload is recognised as a typed stream error
and terminates the one-event stream with the server's message and code. -/
theorem c2_failure_error_iff_witness :
    (processPayload c2FailEvent).isFail = true ∧
    parseEventStream [c2FailEvent] =
      ([], some { message := "quota exceeded", code := some "E1" }) := by
  have h := c2_failure_error_iff c2FailEvent (fun hor => absurd hor (by decide))
  exact ⟨h.1.mpr ⟨_, rfl, by decide⟩, h.2.2 []⟩

/-- C2 counterexample: a payload that parses with a present but empty
`error_code` is emitted, not turned into a stream error — the code's check
is truthiness, not presence, refuting the claim's if-and-only-if. -/
theorem c2_present_empty_error_code_emitted :
    (processPayload c2EmptyCodeEvent).isFail = false ∧
    c2EmptyCodeEvent.parsed.bind (fun p => p.error_code) = some "" := by
  constructor <;> decide

/-- C5: when a block carries a structural-patch instruction, the current
value of the target field defaults — for a field absent from the previous
block — to an empty object when the first patch path starts with a slash
and to an empty string otherwise; on successful patch application the
patched value is stored under the field name; and on any patch failure the
engine falls back to a shallow merge of the raw incoming block over the
previous one, so the merge step (and the overall update) always succeeds
and no failure propagates. -/
theorem c5_patch_best_effort (m : List (String × Block)) (block : Block) (db : DiffBlock)
    (hmd : block.markdown_block = none) (hdb : block.diff_block = some db) :
    ((amGet m block.intended_usage).bind (fun b => amGet b.fields db.field) = none →
       diffCurrent (amGet m block.intended_usage) db =
         (match (db.patches.getD []).head? with
          | some p => if jsStartsWith p.path "/" then Json.obj [] else Json.str ""
          | none => Json.str "")) ∧
    (∀ patched,
       applyPatch (diffCurrent (amGet m block.intended_usage) db) (db.patches.getD []) =
         Except.ok patched →
       mergeBlockStep m block =
         amSet m block.intended_usage
           { ((amGet m block.intended_usage).getD Block.empty) with
               intended_usage := block.intended_usage
               fields :=
                 amSet ((amGet m block.intended_usage).getD Block.empty).fields db.field patched }) ∧
    (∀ msg,
       applyPatch (diffCurrent (amGet m block.intended_usage) db) (db.patches.getD []) =
         Except.error msg →
       mergeBlockStep m block =
         amSet m block.intended_usage
           (blockSpread ((amGet m block.intended_usage).getD Block.empty) block)) := by
  refine ⟨?_, ?_, ?_⟩
  · intro h
    rw [diffCurrent, h, diffDefault]
  · intro patched hap
    rw [mergeBlockStep]
    simp only [hmd, hdb]
    rw [hap]
  · intro msg hap
    rw [mergeBlockStep]
    simp only [hmd, hdb]
    rw [hap]

/-- C5 witness: a `replace` targeting the non-existent path `/a/b` on the
defaulted empty object fails, and the merge step falls back to the shallow
merge of the raw incoming block — no error escapes. -/
theorem c5_patch_best_effort_witness :
    diffCurrent (amGet ([] : List (String × Block)) c5Block.intended_usage) c5Db = Json.obj [] ∧
    mergeBlockStep [] c5Block = amSet [] "k" (blockSpread Block.empty c5Block) := by
  have h := c5_patch_best_effort [] c5Block c5Db rfl rfl
  constructor
  · exact (h.1 rfl).trans rfl
  · exact h.2.2 "replace: path does not exist" rfl

/-- C8: an `emitWithAck` call registers its pending entry with the default
30 s timeout; when the timeout fires, the pending call is rejected with a
timeout error and its entry is removed from the table, so a late ack frame
for that id finds no pending entry and is a no-op that resolves or rejects
nothing. -/
theorem c8_timeout_then_late_ack_noop (st : SockState) (event : String) :
    RPC_TIMEOUT_MS = 30000 ∧
    amGet (PerplexitySocket.emitWithAck st event).1.pendingAcks
        (PerplexitySocket.emitWithAck st event).2 =
      some { event := event, timeoutMs := RPC_TIMEOUT_MS } ∧
    (PerplexitySocket.fireTimeout (PerplexitySocket.emitWithAck st event).1
        (PerplexitySocket.emitWithAck st event).2).2 =
      [RpcOutcome.rejected (PerplexitySocket.emitWithAck st event).2 (RpcError.timeout event)] ∧
    amGet (PerplexitySocket.fireTimeout (PerplexitySocket.emitWithAck st event).1
        (PerplexitySocket.emitWithAck st event).2).1.pendingAcks
        (PerplexitySocket.emitWithAck st event).2 = none ∧
    (∀ payload,
       PerplexitySocket.onAckFrame
           (PerplexitySocket.fireTimeout (PerplexitySocket.emitWithAck st event).1
             (PerplexitySocket.emitWithAck st event).2).1
           (PerplexitySocket.emitWithAck st event).2 payload =
         ((PerplexitySocket.fireTimeout (PerplexitySocket.emitWithAck st event).1
             (PerplexitySocket.emitWithAck st event).2).1, [])) := by
  have hget : amGet (PerplexitySocket.emitWithAck st event).1.pendingAcks
      (PerplexitySocket.emitWithAck st event).2 =
      some { event := event, timeoutMs := RPC_TIMEOUT_MS } := by
    show amGet (amSet st.pendingAcks st.nextAckId { event := event, timeoutMs := RPC_TIMEOUT_MS })
        st.nextAckId = some { event := event, timeoutMs := RPC_TIMEOUT_MS }
    exact amGet_amSet_self _ _ _
  have hfire : PerplexitySocket.fireTimeout (PerplexitySocket.emitWithAck st event).1
      (PerplexitySocket.emitWithAck st event).2 =
      ({ (PerplexitySocket.emitWithAck st event).1 with
          pendingAcks := amRemove (PerplexitySocket.emitWithAck st event).1.pendingAcks
            (PerplexitySocket.emitWithAck st event).2 },
       [RpcOutcome.rejected (PerplexitySocket.emitWithAck st event).2
          (RpcError.timeout event)]) := by
    rw [PerplexitySocket.fireTimeout, hget]
  have hnone : amGet (PerplexitySocket.fireTimeout (PerplexitySocket.emitWithAck st event).1
      (PerplexitySocket.emitWithAck st event).2).1.pendingAcks
      (PerplexitySocket.emitWithAck st event).2 = none := by
    rw [hfire]
    exact amGet_amRemove_self _ _
  refine ⟨rfl, hget, by rw [hfire], hnone, ?_⟩
  intro payload
  rw [PerplexitySocket.onAckFrame, hnone]

/-- C9: both the socket `onclose` handler and `close()` reject every
pending RPC call with the closed-connection error and empty the pending
table (removal also clears each entry's timer in the model), and `close()`
is idempotent: a second call finds an empty table, rejects nothing and
leaves the state unchanged. -/
theorem c9_close_rejects_all_pending (st : SockState) :
    (∀ id pc, (id, pc) ∈ st.pendingAcks →
       RpcOutcome.rejected id RpcError.closed ∈ (PerplexitySocket.onSocketClose st).2) ∧
    (PerplexitySocket.onSocketClose st).1.pendingAcks = [] ∧
    (∀ id pc, (id, pc) ∈ st.pendingAcks →
       RpcOutcome.rejected id RpcError.closed ∈ (PerplexitySocket.close st).2) ∧
    (PerplexitySocket.close st).1.pendingAcks = [] ∧
    PerplexitySocket.close (PerplexitySocket.close st).1 = ((PerplexitySocket.close st).1, []) := by
  refine ⟨?_, rfl, ?_, rfl, rfl⟩
  · intro id pc hm
    exact List.mem_map_of_mem (fun p => RpcOutcome.rejected p.1 RpcError.closed) hm
  · intro id pc hm
    exact List.mem_map_of_mem (fun p => RpcOutcome.rejected p.1 RpcError.closed) hm

/-- C9 witness: with two pending calls outstanding, a socket close rejects
both with the closed-connection error and empties the table. -/
theorem c9_close_rejects_all_pending_witness :
    RpcOutcome.rejected 0 RpcError.closed ∈ (PerplexitySocket.onSocketClose c9St).2 ∧
    RpcOutcome.rejected 1 RpcError.closed ∈ (PerplexitySocket.onSocketClose c9St).2 ∧
    (PerplexitySocket.close c9St).1.pendingAcks = [] := by
  have h := c9_close_rejects_all_pending c9St
  exact ⟨h.1 0 { event := "refresh", timeoutMs := 30000 } (by decide),
         h.1 1 { event := "refresh", timeoutMs := 30000 } (by decide),
         h.2.2.2.1⟩

/-- C7 counterexample: merging a markdown-block update and then a
generic-block update with the same key into the empty entry keeps the
generic `content` field, while merging the pre-combined update into the
empty entry re-enters the markdown branch and drops it — so merge is not
associative in the claimed replay sense. -/
theorem c7_not_associative :
    mergeEntries (mergeEntries emptyEntry c7U1) c7U2 ≠
      mergeEntries emptyEntry (mergeEntries c7U1 c7U2) := by
  intro h
  have h2 := congrArg (fun e : EntryP =>
    ((e.blocks.getD []).head?.map (fun b => (amGet b.fields "content").isSome)).getD false) h
  exact absurd h2 (by decide)

/-- C7 (amended): for block-free updates (blocks absent or empty), merging
U1 then U2 sequentially into the empty entry yields the same entry as a
single merge of the pre-combined update into the empty entry. -/
theorem c7_scalar_assoc (u1 u2 : EntryP)
    (h1 : u1.blocks.getD [] = []) (h2 : u2.blocks.getD [] = []) :
    mergeEntries (mergeEntries emptyEntry u1) u2 =
      mergeEntries emptyEntry (mergeEntries u1 u2) := by
  obtain ⟨s1, f1, t1, e1, b1, fl1⟩ := u1
  obtain ⟨s2, f2, t2, e2, b2, fl2⟩ := u2
  have hb1 : b1 = none ∨ b1 = some [] := by
    cases b1 with
    | none => exact Or.inl rfl
    | some l =>
      simp only [Option.getD] at h1
      exact Or.inr (by rw [h1])
  have hb2 : b2 = none ∨ b2 = some [] := by
    cases b2 with
    | none => exact Or.inl rfl
    | some l =>
      simp only [Option.getD] at h2
      exact Or.inr (by rw [h2])
  rcases hb1 with hb1 | hb1 <;> rcases hb2 with hb2 | hb2 <;> subst hb1 <;> subst hb2 <;>
    simp [mergeEntries, spreadEntryRest, emptyEntry, oSpread_none, spreadF_nil]

/-- C7 witness: two block-free scalar updates merge associatively. -/
theorem c7_scalar_assoc_witness :
    mergeEntries (mergeEntries emptyEntry c7w1) c7w2 =
      mergeEntries emptyEntry (mergeEntries c7w1 c7w2) :=
  c7_scalar_assoc c7w1 c7w2 rfl rfl

/-! ### Lemmas about the keyed block map -/

theorem list_map_eq_of_forall {α β : Type} {l : List α} {f g : α → β}
    (h : ∀ a ∈ l, f a = g a) : l.map f = l.map g := by
  induction l with
  | nil => rfl
  | cons x t ih =>
    rw [List.map_cons, List.map_cons, h x (List.mem_cons_self x t),
      ih (fun a ha => h a (List.mem_cons_of_mem _ ha))]

theorem blockMapWF_amSet {m : List (String × Block)} {k : String} {v : Block}
    (h : BlockMapWF m) (hv : v.intended_usage = k) : BlockMapWF (amSet m k v) := by
  refine ⟨amKeys_nodup_amSet k v h.1, ?_⟩
  intro p hp
  rcases mem_amSet hp with h1 | h1
  · exact h.2 p h1
  · rw [h1]
    exact hv

theorem blockMapWF_step (m : List (String × Block)) (b : Block)
    (h : BlockMapWF m) : BlockMapWF (mergeBlockStep m b) := by
  simp only [mergeBlockStep]
  split
  · exact blockMapWF_amSet h rfl
  · split
    · split
      · exact blockMapWF_amSet h rfl
      · exact blockMapWF_amSet h rfl
    · exact blockMapWF_amSet h rfl

theorem blockMapWF_foldl (inc : List Block) (m : List (String × Block))
    (h : BlockMapWF m) : BlockMapWF (inc.foldl mergeBlockStep m) := by
  induction inc generalizing m with
  | nil => exact h
  | cons b t ih => exact ih _ (blockMapWF_step m b h)

theorem blockMapWF_initBlockMap (ex : List Block) : BlockMapWF (initBlockMap ex) := by
  rw [initBlockMap]
  have hgen : ∀ (l : List Block) (m : List (String × Block)), BlockMapWF m →
      BlockMapWF (l.foldl (fun m b => amSet m b.intended_usage b) m) := by
    intro l
    induction l with
    | nil => exact fun m h => h
    | cons b t ih => exact fun m h => ih _ (blockMapWF_amSet h rfl)
  refine hgen ex [] ⟨List.nodup_nil, ?_⟩
  intro p hp
  simp at hp

/-- C6: the block collection `mergeBlocks` produces contains at most one
block per `intended_usage` key (its key list has no duplicates, for every
existing and incoming list), and when two incoming generic blocks in one
update share a key, the later one wins for overlapping fields: the merged
block stored under that key carries the later block's value for every
field the later block defines. -/
theorem c6_key_uniqueness_lww (existing incoming : List Block) :
    ((mergeBlocks existing incoming).map (fun b => b.intended_usage)).Nodup ∧
    (∀ (b1 b2 : Block) (f : String) (v : Json),
       b1.intended_usage = b2.intended_usage →
       b1.markdown_block = none → b1.diff_block = none →
       b2.markdown_block = none → b2.diff_block = none →
       amGet b2.fields f = some v →
       ∀ b ∈ mergeBlocks existing [b1, b2],
         b.intended_usage = b1.intended_usage → amGet b.fields f = some v) := by
  constructor
  · have hwf : BlockMapWF (incoming.foldl mergeBlockStep (initBlockMap existing)) :=
      blockMapWF_foldl incoming _ (blockMapWF_initBlockMap existing)
    rw [mergeBlocks, List.map_map]
    have hmc := list_map_eq_of_forall
      (l := incoming.foldl mergeBlockStep (initBlockMap existing))
      (f := (fun b => b.intended_usage) ∘ Prod.snd) (g := Prod.fst)
      (fun p hp =>
        show ((fun b => b.intended_usage) ∘ Prod.snd) p = Prod.fst p from hwf.2 p hp)
    rw [hmc]
    exact hwf.1
  · intro b1 b2 f v hkey hmd1 hdf1 hmd2 hdf2 hv b hb husage
    have hwf0 : BlockMapWF (initBlockMap existing) := blockMapWF_initBlockMap existing
    have hs1 : mergeBlockStep (initBlockMap existing) b1 =
        amSet (initBlockMap existing) b1.intended_usage
          (blockSpread ((amGet (initBlockMap existing) b1.intended_usage).getD Block.empty) b1) := by
      simp only [mergeBlockStep, hmd1, hdf1]
    have hget1 : amGet (amSet (initBlockMap existing) b1.intended_usage
        (blockSpread ((amGet (initBlockMap existing) b1.intended_usage).getD Block.empty) b1))
        b2.intended_usage =
        some (blockSpread ((amGet (initBlockMap existing) b1.intended_usage).getD Block.empty) b1) := by
      rw [← hkey]
      exact amGet_amSet_self _ _ _
    have hs2 : mergeBlockStep (amSet (initBlockMap existing) b1.intended_usage
        (blockSpread ((amGet (initBlockMap existing) b1.intended_usage).getD Block.empty) b1)) b2 =
        amSet (amSet (initBlockMap existing) b1.intended_usage
          (blockSpread ((amGet (initBlockMap existing) b1.intended_usage).getD Block.empty) b1))
          b2.intended_usage
          (blockSpread
            (blockSpread ((amGet (initBlockMap existing) b1.intended_usage).getD Block.empty) b1)
            b2) := by
      simp only [mergeBlockStep, hmd2, hdf2, hget1, Option.getD_some]
    have hM : mergeBlocks existing [b1, b2] =
        (amSet (amSet (initBlockMap existing) b1.intended_usage
          (blockSpread ((amGet (initBlockMap existing) b1.intended_usage).getD Block.empty) b1))
          b2.intended_usage
          (blockSpread
            (blockSpread ((amGet (initBlockMap existing) b1.intended_usage).getD Block.empty) b1)
            b2)).map Prod.snd := by
      rw [mergeBlocks, List.foldl_cons, List.foldl_cons, List.foldl_nil, hs1, hs2]
    have hwfM : BlockMapWF (amSet (amSet (initBlockMap existing) b1.intended_usage
        (blockSpread ((amGet (initBlockMap existing) b1.intended_usage).getD Block.empty) b1))
        b2.intended_usage
        (blockSpread
          (blockSpread ((amGet (initBlockMap existing) b1.intended_usage).getD Block.empty) b1)
          b2)) := blockMapWF_amSet (blockMapWF_amSet hwf0 rfl) rfl
    rw [hM] at hb
    rcases List.mem_map.mp hb with ⟨p, hpM, hpb⟩
    have hpmem : (b2.intended_usage, b) ∈ amSet (amSet (initBlockMap existing) b1.intended_usage
        (blockSpread ((amGet (initBlockMap existing) b1.intended_usage).getD Block.empty) b1))
        b2.intended_usage
        (blockSpread
          (blockSpread ((amGet (initBlockMap existing) b1.intended_usage).getD Block.empty) b1)
          b2) := by
      have hp1 : p.1 = b2.intended_usage := by
        rw [← hwfM.2 p hpM, hpb, husage, hkey]
      have hpeq : p = (b2.intended_usage, b) := by
        cases p
        simp only at hp1 hpb
        rw [hp1, hpb]
      rw [← hpeq]
      exact hpM
    have hgetb : amGet (amSet (amSet (initBlockMap existing) b1.intended_usage
        (blockSpread ((amGet (initBlockMap existing) b1.intended_usage).getD Block.empty) b1))
        b2.intended_usage
        (blockSpread
          (blockSpread ((amGet (initBlockMap existing) b1.intended_usage).getD Block.empty) b1)
          b2)) b2.intended_usage = some b := amGet_eq_of_mem_nodup hwfM.1 hpmem
    have hbeq : b = blockSpread
        (blockSpread ((amGet (initBlockMap existing) b1.intended_usage).getD Block.empty) b1) b2 := by
      have := (amGet_amSet_self (amSet (initBlockMap existing) b1.intended_usage
        (blockSpread ((amGet (initBlockMap existing) b1.intended_usage).getD Block.empty) b1))
        b2.intended_usage
        (blockSpread
          (blockSpread ((amGet (initBlockMap existing) b1.intended_usage).getD Block.empty) b1)
          b2)).symm.trans hgetb
      exact (Option.some.injEq _ _ ▸ this).symm
    rw [hbeq]
    show amGet (spreadF (blockSpread ((amGet (initBlockMap existing) b1.intended_usage).getD
        Block.empty) b1).fields b2.fields) f = some v
    rw [amGet_spreadF, hv]
    rfl

/-- C6 witness: two incoming generic blocks with the same key merge into a
single block whose overlapping field `b` carries the later block's value,
and the merged key list has no duplicates. -/
theorem c6_key_uniqueness_lww_witness :
    amGet c6Out.fields "b" = some (Json.str "3") ∧
    ((mergeBlocks [] [c6b1, c6b2]).map (fun b => b.intended_usage)).Nodup := by
  have h := c6_key_uniqueness_lww [] [c6b1, c6b2]
  have he : mergeBlocks [] [c6b1, c6b2] = [c6Out] := rfl
  have hmem : c6Out ∈ mergeBlocks [] [c6b1, c6b2] := by
    rw [he]
    exact List.mem_singleton_self _
  exact ⟨h.2 c6b1 c6b2 "b" (Json.str "3") rfl rfl rfl rfl rfl rfl c6Out hmem rfl, h.1⟩
